import Mathlib

/-!
Verification of the grouping-and-sampling engine of `RRSv3Formation.py`
(class `InterfaceHandling` and method
`make_random_protein_pairs_with_groups_select_RRS_instances` of class
`RRSv3Formation`).

Shallow embedding conventions:
* protein / domain / SLiM identifiers are `String`s, as in the source;
* Python dicts keyed by tuples become association lists (insertion order
  preserved, keys unique) or, for `protein_pairs_dict`, a `List Pair` of
  keys in insertion order — the stored `ProteinPair` value is a function of
  the key alone because `find_DMI_matches` recomputes matches from the
  match oracle, so keys suffice;
* `random.sample(l, k)` is an abstract function `sample` constrained by
  `SampleSpec` (on `k ≤ l.length` it returns `k` elements of `l`, without
  replacement); any concrete sampler satisfying `SampleSpec` is one
  possible random outcome;
* Python `KeyError` / `ValueError` paths are modelled with `Option`
  (`none` = exception raised).

The DMI matching engine (`DMIDB.find_DMI_matches`) is not part of the
repository sources available here. Modelled from the spec: it is a black
box invoked once per sampling round on the full candidate set, whose
result maps exactly the pairs having at least one match to their nonempty
match lists, and it does not remove candidate pairs from
`protein_pairs_dict`. We model it as an oracle `m : Pair → Nat` giving the
number of matches of the current DMI type on a pair; the match list of
pair `p` is `matchList m p`, and `dmi_matches_dict[slim_id]` raises
`KeyError` exactly when `m p = 0`.
-/

/-- A protein pair, as the Python 2-tuple of UniProt identifiers. -/
abbrev Pair : Type := String × String

/-- One DMI match record: the candidate pair it belongs to together with an
index into that pair's match list.  This is the payload appended to
`RRS_instances`. -/
abbrev Inst : Type := Pair × Nat

/-- Lexicographic comparison of character lists by code point, the order
Python string comparison uses. -/
def charsLeB : List Char → List Char → Bool
  | [], _ => true
  | _ :: _, [] => false
  | a :: as, b :: bs =>
    if a.toNat < b.toNat then true
    else if b.toNat < a.toNat then false
    else charsLeB as bs

/-- Python string `<=`: lexicographic by code point. -/
def strLe (a b : String) : Bool := charsLeB a.toList b.toList

/-- Python `tuple(sorted(pp))` on a 2-tuple of strings (line 142). -/
def sortPair (pp : Pair) : Pair :=
  if strLe pp.1 pp.2 then pp else (pp.2, pp.1)

/-- Python truthiness test `any(l)` on a list of strings: true iff some
element is a nonempty string (lines 78, 95, 136). -/
def anyTruthy (l : List String) : Bool :=
  l.any (fun s => !(s == ""))

/-- Python `list(itertools.product(l1, l2))` (lines 137-140). -/
def cartProduct (l1 l2 : List String) : List Pair :=
  l1.flatMap (fun a => l2.map (fun b => (a, b)))

/-- The behaviour `random.sample` guarantees whenever `k ≤ l.length`: the
result has `k` elements, every element comes from the population, and the
draw is without replacement (positions are distinct, so a duplicate-free
population yields a duplicate-free sample). -/
def SampleSpec (sample : (α : Type) → List α → Nat → List α) : Prop :=
  ∀ (α : Type) (l : List α) (k : Nat), k ≤ l.length →
    (sample α l k).length = k ∧
    (∀ x ∈ sample α l k, x ∈ l) ∧
    (l.Nodup → (sample α l k).Nodup)

/-- A concrete sampler (one possible outcome of `random.sample`): take the
first `k` elements. -/
def takeSample (α : Type) (l : List α) (k : Nat) : List α :=
  l.take k

/-- Python dict insertion `protein_pairs_dict[pp] = ProteinPair(...)`
restricted to the key set: an existing key keeps its position, a new key is
appended (line 144). -/
def insertKey (d : List Pair) (p : Pair) : List Pair :=
  if p ∈ d then d else d ++ [p]

/-- Lines 142-144: canonicalize a drawn pair, drop it when it is a known
PPI, otherwise store it in `protein_pairs_dict`. -/
def addCandidate (known : List Pair) (d : List Pair) (pp : Pair) : List Pair :=
  let cp := sortPair pp
  if cp ∈ known then d else insertKey d cp

/-- Lines 137-140: the candidate pairs generated for one domain-interface
round, before canonicalization — the full Cartesian product, or a random
sample of 50 of it when it is larger than 50. -/
def chooseCandidates (sample : (α : Type) → List α → Nat → List α)
    (dps sps : List String) : List Pair :=
  let product := cartProduct dps sps
  if 50 < product.length then sample Pair product 50 else product

/-- The key set of `protein_pairs_dict` after one domain-interface round
has generated and filtered its candidates (lines 137-144), starting from
the dict contents `d0` left by earlier rounds of the same DMI type. -/
def dictAfter (sample : (α : Type) → List α → Nat → List α)
    (known : List Pair) (dps sps : List String) (d0 : List Pair) : List Pair :=
  (chooseCandidates sample dps sps).foldl (addCandidate known) d0

/-- The match list `dmi_matches_dict[slim_id]` of a candidate pair, as
recomputed by the match oracle `m`. -/
def matchList (m : Pair → Nat) (p : Pair) : List Inst :=
  (List.range (m p)).map (fun i => (p, i))

/-- Lines 148 and 151: `random.sample(pair.dmi_matches_dict[slim_id], 1)`.
`none` models the `KeyError` raised when the pair has no match of the
current DMI type. -/
def drawOne (sample : (α : Type) → List α → Nat → List α)
    (m : Pair → Nat) (p : Pair) : Option (List Inst) :=
  if m p = 0 then none else some (sample Inst (matchList m p) 1)

/-- Lines 147-148 / 150-151: draw one instance per pair of `ps`, in order,
concatenating the draws; fails as soon as a pair has no match. -/
def selectAll (sample : (α : Type) → List α → Nat → List α)
    (m : Pair → Nat) : List Pair → Option (List Inst)
  | [] => some []
  | p :: rest =>
    match drawOne sample m p with
    | none => none
    | some i =>
      match selectAll sample m rest with
      | none => none
      | some r => some (i ++ r)

/-- The per-round mutable state: the keys of
`InterfaceHandling.protein_pairs_dict` and the replicate's
`self.RRS_instances`. -/
structure RoundState where
  dict : List Pair
  rrs : List Inst
deriving Repr, DecidableEq

/-- Lines 146-151 pick the pairs instances are drawn from: a random
sample of `number_instances` keys of `protein_pairs_dict` when the dict
holds at least that many (line 147), else every key of the dict
(line 150). -/
def selOf (sample : (α : Type) → List α → Nat → List α) (n : Nat)
    (d : List Pair) : List Pair :=
  if n ≤ d.length then sample Pair d n else d

/-- One domain-interface round of
`make_random_protein_pairs_with_groups_select_RRS_instances`
(lines 136-151): when both groups are nonempty (Python `any`), generate
capped candidates, filter and accumulate them into `protein_pairs_dict`,
run the matcher, then draw one instance per pair of `selOf`. -/
def domainRound (sample : (α : Type) → List α → Nat → List α)
    (known : List Pair) (m : Pair → Nat) (n : Nat)
    (dps sps : List String) (st : RoundState) : Option RoundState :=
  if anyTruthy dps && anyTruthy sps then
    let dict' := dictAfter sample known dps sps st.dict
    match selectAll sample m (selOf sample n dict') with
    | none => none
    | some insts => some ⟨dict', st.rrs ++ insts⟩
  else some st

/-- Lines 125-130: resolve the domain interfaces of a DMI type to the
`domain_groups` lookup keys used at lines 131-135.  With more than one
interface, each interface contributes only its first domain identifier
(`list(domain_interface.domain_dict)[0]`, a `str`, looked up as a
1-tuple); a single interface contributes its full key list. -/
def interfaceKeys : List (List String) → List (List String)
  | [] => []
  | [di] => [di]
  | ifaces => ifaces.map (fun di => di.take 1)

/-- First-match association-list lookup, the Python dict read
`d[k]` with `none` for `KeyError`. -/
def lookupAssoc {β : Type} (l : List (List String × β)) (k : List String) : Option β :=
  match l with
  | [] => none
  | e :: rest => if e.1 = k then some e.2 else lookupAssoc rest k

/-- Lines 131-151: run the domain-interface rounds of one DMI type in
order over the shared `protein_pairs_dict` / `RRS_instances` state,
looking each resolved key up in `domain_groups` (`none` = `KeyError`). -/
def domainRounds (sample : (α : Type) → List α → Nat → List α)
    (known : List Pair) (m : Pair → Nat) (n : Nat)
    (dgs : List (List String × List String)) (sps : List String) :
    List (List String) → RoundState → Option RoundState
  | [], st => some st
  | key :: rest, st =>
    match lookupAssoc dgs key with
    | none => none
    | some dps =>
      match domainRound sample known m n dps sps st with
      | none => none
      | some st' => domainRounds sample known m n dgs sps rest st'

/-- Lines 122-151 for a single `slim_id`: reset `protein_pairs_dict`, then
run every resolved domain-interface round of this DMI type. -/
def slimRound (sample : (α : Type) → List α → Nat → List α)
    (known : List Pair) (m : Pair → Nat) (n : Nat)
    (dgs : List (List String × List String)) (ifaces : List (List String))
    (sps : List String) (rrs0 : List Inst) : Option RoundState :=
  domainRounds sample known m n dgs sps (interfaceKeys ifaces) ⟨[], rrs0⟩

/-- The shared `InterfaceHandling` state read and written by
`make_random_protein_pairs_with_groups_select_RRS_instances`:
`domain_groups` and `slim_groups` built by the group builders,
`known_PPIs` loaded from the known-PPI file (modelled from the spec: the
known-PPI set holds unordered pairs canonicalized by sorting the two ids),
and the scratch `protein_pairs_dict`. -/
structure Global where
  domain_groups : List (List String × List String)
  slim_groups : List (String × List String)
  known_PPIs : List Pair
  protein_pairs_dict : List Pair
deriving Repr, DecidableEq

/-- Line 122: iterate the DMI types in `slim_groups` order; for each,
look up its `DMIType` (line 124), resolve its interfaces and run its
rounds.  The `dict` of the incoming state is discarded at line 123 before
any read. -/
def slimRounds (sample : (α : Type) → List α → Nat → List α)
    (matcher : String → Pair → Nat) (n : Nat)
    (dmi_types : List (String × List (List String)))
    (dgs : List (List String × List String)) (known : List Pair) :
    List (String × List String) → RoundState → Option RoundState
  | [], st => some st
  | sg :: rest, st =>
    match lookupAssoc (dmi_types.map (fun e => ([e.1], e.2))) [sg.1] with
    | none => none
    | some ifaces =>
      match slimRound sample known (matcher sg.1) n dgs ifaces sg.2 st.rrs with
      | none => none
      | some st' => slimRounds sample matcher n dmi_types dgs known rest st'

/-- One full call of
`make_random_protein_pairs_with_groups_select_RRS_instances` for one
replicate: `RRS_instances` starts empty (a fresh `RRSv3Formation` object
is built per replicate label), the shared state is threaded through and
returned together with the replicate's instance list. -/
def runReplicate (sample : (α : Type) → List α → Nat → List α)
    (matcher : String → Pair → Nat) (n : Nat)
    (dmi_types : List (String × List (List String))) (g : Global) :
    Option (Global × List Inst) :=
  match slimRounds sample matcher n dmi_types g.domain_groups g.known_PPIs
      g.slim_groups ⟨g.protein_pairs_dict, []⟩ with
  | none => none
  | some st => some ({ g with protein_pairs_dict := st.dict }, st.rrs)

/-- The membership condition of `get_domain_groups`, lines 77-85, for one
registered key and one protein's domain match set: the protein passes the
`any(...)` truthiness guard, the key has length 1 or 2, and every domain
of the key is among the protein's domain matches.  (A length-1 key `[d]`
is appended by the first loop exactly when `d` is a match; a length-2 key
by the second loop exactly when the intersection with the match set equals
the key, i.e. both domains are matches.) -/
def protCond (k : List String) (ms : List String) : Bool :=
  anyTruthy ms && (k.length == 1 || k.length == 2) && k.all (fun d => ms.contains d)

/-- Lines 77-85, one protein: append its identifier to every registered
group whose key it satisfies. -/
def addProtein (groups : List (List String × List String))
    (pr : String × List String) : List (List String × List String) :=
  groups.map (fun kg => if protCond kg.1 pr.2 then (kg.1, kg.2 ++ [pr.1]) else kg)

/-- The second phase of `get_domain_groups` (lines 77-85): fold every
protein (identifier, domain match set) over the registered groups. -/
def get_domain_groups (init : List (List String × List String))
    (prots : List (String × List String)) : List (List String × List String) :=
  prots.foldl addProtein init

/-- Python dict assignment `domain_groups[k] = []` (lines 72, 74): an
existing key keeps its position (its value is already `[]`), a new key is
appended with an empty group. -/
def registerKey (acc : List (List String × List String)) (k : List String) :
    List (List String × List String) :=
  if acc.any (fun e => e.1 == k) then acc else acc ++ [(k, [])]

/-- The first phase of `get_domain_groups` (lines 69-74): register one key
per domain interface of a multi-interface DMI type, and the single (1- or
2-domain) full key of a one-interface DMI type. -/
def registerDmiType (acc : List (List String × List String))
    (ifaces : List (List String)) : List (List String × List String) :=
  if 1 < ifaces.length then ifaces.foldl registerKey acc
  else registerKey acc (ifaces.headD [])

lemma char_eq_of_toNat_eq {a b : Char} (h : a.toNat = b.toNat) : a = b := by
  have h2 := congrArg Char.ofNat h
  simpa using h2

lemma charsLeB_total (a b : List Char) : charsLeB a b = true ∨ charsLeB b a = true := by
  induction a generalizing b with
  | nil => exact Or.inl rfl
  | cons x xs ih =>
    cases b with
    | nil => exact Or.inr rfl
    | cons y ys =>
      by_cases hxy : x.toNat < y.toNat
      · left; simp [charsLeB, hxy]
      · by_cases hyx : y.toNat < x.toNat
        · right; simp [charsLeB, hyx]
        · have := ih ys
          rcases this with h | h
          · left; simp [charsLeB, hxy, hyx, h]
          · right; simp [charsLeB, hxy, hyx, h]

lemma charsLeB_antisymm {a b : List Char} (hab : charsLeB a b = true)
    (hba : charsLeB b a = true) : a = b := by
  induction a generalizing b with
  | nil =>
    cases b with
    | nil => rfl
    | cons y ys => simp [charsLeB] at hba
  | cons x xs ih =>
    cases b with
    | nil => simp [charsLeB] at hab
    | cons y ys =>
      by_cases hxy : x.toNat < y.toNat
      · exfalso
        have : ¬ y.toNat < x.toNat := Nat.lt_asymm hxy
        simp [charsLeB, this, Nat.ne_of_gt hxy, Nat.lt_irrefl] at hba
        omega
      · by_cases hyx : y.toNat < x.toNat
        · exfalso
          simp [charsLeB, hyx, hxy] at hab
        · have hx : x = y := char_eq_of_toNat_eq (by omega)
          subst hx
          simp [charsLeB, hxy, hyx] at hab hba
          rw [ih hab hba]

lemma strLe_total (a b : String) : strLe a b = true ∨ strLe b a = true :=
  charsLeB_total a.toList b.toList

lemma strLe_antisymm {a b : String} (hab : strLe a b = true)
    (hba : strLe b a = true) : a = b := by
  have h := charsLeB_antisymm hab hba
  have h2 : a.toList = b.toList := h
  exact String.ext (by simpa [String.toList] using h2)

lemma sortPair_comm (a b : String) : sortPair (a, b) = sortPair (b, a) := by
  unfold sortPair
  by_cases hab : strLe a b = true
  · by_cases hba : strLe b a = true
    · have : a = b := strLe_antisymm hab hba
      subst this; rfl
    · simp [hab, hba]
  · by_cases hba : strLe b a = true
    · simp [hab, hba]
    · rcases strLe_total a b with h | h
      · exact absurd h hab
      · exact absurd h hba

lemma sortPair_idem (pp : Pair) : sortPair (sortPair pp) = sortPair pp := by
  obtain ⟨a, b⟩ := pp
  unfold sortPair
  by_cases hab : strLe a b = true
  · simp [hab]
  · rcases strLe_total a b with h | h
    · exact absurd h hab
    · simp [hab, h]

lemma mem_matchList {m : Pair → Nat} {p : Pair} {x : Inst}
    (h : x ∈ matchList m p) : x.1 = p := by
  unfold matchList at h
  simp at h
  obtain ⟨i, _, hx⟩ := h
  rw [← hx]

lemma length_matchList (m : Pair → Nat) (p : Pair) :
    (matchList m p).length = m p := by
  simp [matchList]

lemma drawOne_some {sample : (α : Type) → List α → Nat → List α}
    (hs : SampleSpec sample) {m : Pair → Nat} {p : Pair} {i : List Inst}
    (h : drawOne sample m p = some i) : i.map Prod.fst = [p] := by
  unfold drawOne at h
  by_cases hm : m p = 0
  · simp [hm] at h
  · simp [hm] at h
    have hk : 1 ≤ (matchList m p).length := by
      rw [length_matchList]; omega
    obtain ⟨hlen, hmem, _⟩ := hs Inst (matchList m p) 1 hk
    subst h
    obtain ⟨x, hx⟩ := List.length_eq_one.mp hlen
    rw [hx]
    simp
    exact mem_matchList (hmem x (by simp [hx]))

lemma selectAll_some_map_fst {sample : (α : Type) → List α → Nat → List α}
    (hs : SampleSpec sample) {m : Pair → Nat} {l : List Pair} {r : List Inst}
    (h : selectAll sample m l = some r) : r.map Prod.fst = l := by
  induction l generalizing r with
  | nil => simp [selectAll] at h; simp [← h]
  | cons p rest ih =>
    unfold selectAll at h
    cases hd : drawOne sample m p with
    | none => rw [hd] at h; simp at h
    | some i =>
      rw [hd] at h
      cases hr : selectAll sample m rest with
      | none => rw [hr] at h; simp at h
      | some r' =>
        rw [hr] at h
        simp at h
        rw [← h]
        simp [drawOne_some hs hd, ih hr]

lemma selectAll_isSome {sample : (α : Type) → List α → Nat → List α}
    {m : Pair → Nat} {l : List Pair} (hm : ∀ p ∈ l, 0 < m p) :
    ∃ r, selectAll sample m l = some r := by
  induction l with
  | nil => exact ⟨[], rfl⟩
  | cons p rest ih =>
    have hp : m p ≠ 0 := Nat.pos_iff_ne_zero.mp (hm p (by simp))
    obtain ⟨r, hr⟩ := ih (fun q hq => hm q (by simp [hq]))
    refine ⟨sample Inst (matchList m p) 1 ++ r, ?_⟩
    simp [selectAll, drawOne, hp, hr]

lemma selectAll_none_of_mem {sample : (α : Type) → List α → Nat → List α}
    {m : Pair → Nat} {l : List Pair} {p : Pair} (hp : p ∈ l) (hm : m p = 0) :
    selectAll sample m l = none := by
  induction l with
  | nil => simp at hp
  | cons q rest ih =>
    rcases List.mem_cons.mp hp with h | h
    · subst h
      simp [selectAll, drawOne, hm]
    · unfold selectAll
      cases hd : drawOne sample m q with
      | none => rfl
      | some i => rw [ih h]

lemma mem_insertKey {d : List Pair} {p q : Pair} :
    q ∈ insertKey d p ↔ q ∈ d ∨ q = p := by
  unfold insertKey
  by_cases hp : p ∈ d
  · simp [hp]
    intro hq; subst hq; exact hp
  · simp [hp]

lemma insertKey_nodup {d : List Pair} (hd : d.Nodup) (p : Pair) :
    (insertKey d p).Nodup := by
  unfold insertKey
  by_cases hp : p ∈ d
  · simpa [hp]
  · simp only [hp, if_false]
    refine hd.append (List.nodup_singleton p) ?_
    intro q hq hq2
    simp at hq2
    subst hq2
    exact hp hq

/-- The invariant that `protein_pairs_dict` keeps through lines 141-144:
keys are unique, canonical, and never known PPIs. -/
def GoodDict (known : List Pair) (d : List Pair) : Prop :=
  d.Nodup ∧ ∀ p ∈ d, p ∉ known ∧ sortPair p = p

lemma addCandidate_good {known d : List Pair} (h : GoodDict known d) (pp : Pair) :
    GoodDict known (addCandidate known d pp) := by
  obtain ⟨hnd, hmem⟩ := h
  unfold addCandidate
  by_cases hk : sortPair pp ∈ known
  · simpa [hk] using ⟨hnd, hmem⟩
  · simp [hk]
    refine ⟨insertKey_nodup hnd _, ?_⟩
    intro p hp
    rcases mem_insertKey.mp hp with h | h
    · exact hmem p h
    · subst h
      exact ⟨hk, sortPair_idem pp⟩

lemma foldl_addCandidate_good {known : List Pair} (l : List Pair) {d : List Pair}
    (h : GoodDict known d) : GoodDict known (l.foldl (addCandidate known) d) := by
  induction l generalizing d with
  | nil => exact h
  | cons pp rest ih => exact ih (addCandidate_good h pp)

lemma dictAfter_good {sample : (α : Type) → List α → Nat → List α}
    {known : List Pair} (dps sps : List String) {d : List Pair}
    (h : GoodDict known d) : GoodDict known (dictAfter sample known dps sps d) :=
  foldl_addCandidate_good _ h

lemma goodDict_nil (known : List Pair) : GoodDict known [] :=
  ⟨List.nodup_nil, by simp⟩

lemma takeSample_spec : SampleSpec takeSample := by
  intro α l k hk
  refine ⟨?_, ?_, ?_⟩
  · simpa [takeSample] using hk
  · intro x hx
    exact List.take_subset k l hx
  · intro hnd
    exact hnd.sublist (List.take_sublist k l)

lemma selOf_length {sample : (α : Type) → List α → Nat → List α}
    (hs : SampleSpec sample) (n : Nat) (d : List Pair) :
    (selOf sample n d).length = min n d.length := by
  unfold selOf
  by_cases h : n ≤ d.length
  · obtain ⟨hlen, _, _⟩ := hs Pair d n h
    simp [h, hlen, Nat.min_eq_left h]
  · have := Nat.le_of_not_le h
    simp [h, Nat.min_eq_right this]

lemma selOf_subset {sample : (α : Type) → List α → Nat → List α}
    (hs : SampleSpec sample) (n : Nat) (d : List Pair) :
    ∀ x ∈ selOf sample n d, x ∈ d := by
  unfold selOf
  by_cases h : n ≤ d.length
  · obtain ⟨_, hmem, _⟩ := hs Pair d n h
    simpa [h] using hmem
  · simp [h]

lemma selOf_nodup {sample : (α : Type) → List α → Nat → List α}
    (hs : SampleSpec sample) (n : Nat) {d : List Pair} (hd : d.Nodup) :
    (selOf sample n d).Nodup := by
  unfold selOf
  by_cases h : n ≤ d.length
  · obtain ⟨_, _, hnd⟩ := hs Pair d n h
    simpa [h] using hnd hd
  · simpa [h] using hd

lemma domainRound_some_of_guard_false {sample : (α : Type) → List α → Nat → List α}
    {known : List Pair} {m : Pair → Nat} {n : Nat} {dps sps : List String}
    (st : RoundState) (h : (anyTruthy dps && anyTruthy sps) = false) :
    domainRound sample known m n dps sps st = some st := by
  simp [domainRound, h]

lemma domainRound_spec {sample : (α : Type) → List α → Nat → List α}
    {known : List Pair} {m : Pair → Nat} {n : Nat} {dps sps : List String}
    {st st' : RoundState}
    (hg : (anyTruthy dps && anyTruthy sps) = true)
    (h : domainRound sample known m n dps sps st = some st') :
    st'.dict = dictAfter sample known dps sps st.dict ∧
    ∃ insts, st'.rrs = st.rrs ++ insts ∧
      selectAll sample m (selOf sample n st'.dict) = some insts := by
  unfold domainRound at h
  rw [hg] at h
  simp at h
  cases hsel : selectAll sample m (selOf sample n (dictAfter sample known dps sps st.dict)) with
  | none => rw [hsel] at h; simp at h
  | some insts =>
    rw [hsel] at h
    simp at h
    rw [← h]
    exact ⟨rfl, insts, rfl, hsel⟩

lemma addCandidate_nodup {known d : List Pair} (hd : d.Nodup) (pp : Pair) :
    (addCandidate known d pp).Nodup := by
  unfold addCandidate
  by_cases hk : sortPair pp ∈ known
  · simpa [hk]
  · simpa [hk] using insertKey_nodup hd _

lemma dictAfter_nodup {sample : (α : Type) → List α → Nat → List α}
    {known : List Pair} (dps sps : List String) {d : List Pair} (hd : d.Nodup) :
    (dictAfter sample known dps sps d).Nodup := by
  unfold dictAfter
  generalize chooseCandidates sample dps sps = l
  induction l generalizing d with
  | nil => exact hd
  | cons pp rest ih => exact ih (addCandidate_nodup hd pp)

/-- C1 (counterexample) — the selection-count law fails as stated: with
candidate pairs `(A, X)` (one match) and `(B, X)` (no match) surviving the
filter and `target_count = 4`, the distinct matched pairs number `M = 1`
and the claim demands exactly one appended instance, but the selector
draws from the whole `protein_pairs_dict` and indexing the unmatched
pair's match list at line 151 raises `KeyError` (`none`), aborting the
round instead. -/
theorem selection_count_law_counterexample :
    dictAfter takeSample [] ["A", "B"] ["X"] [] = [("A", "X"), ("B", "X")] ∧
    ((dictAfter takeSample [] ["A", "B"] ["X"] []).filter
      (fun p => !((if p = (("A" : String), ("X" : String)) then 1 else 0) == 0))).length = 1 ∧
    domainRound takeSample []
      (fun p => if p = (("A" : String), ("X" : String)) then 1 else 0) 4
      ["A", "B"] ["X"] ⟨[], []⟩ = none := by
  refine ⟨by decide, by decide, by decide⟩

/-- C1 (amended) — Selection-count law under the totality precondition: in
a domain-interface sampling round of
`make_random_protein_pairs_with_groups_select_RRS_instances` whose every
candidate pair surviving the known-PPI filter has at least one match of
the current DMI type (the matched pairs are then exactly the `M` distinct
keys of `protein_pairs_dict`), the round completes and appends exactly
`target_count` instances when `M ≥ target_count`, and exactly `M`
instances when `M < target_count` — i.e. exactly `min target_count M`
instances.  Without that precondition the law can fail with a `KeyError`
instead, as the counterexample above shows. -/
theorem selection_count_law {sample : (α : Type) → List α → Nat → List α}
    (hs : SampleSpec sample) (known : List Pair) (m : Pair → Nat) (n : Nat)
    (dps sps : List String) (st : RoundState)
    (hg : (anyTruthy dps && anyTruthy sps) = true)
    (hm : ∀ p ∈ dictAfter sample known dps sps st.dict, 0 < m p) :
    ∃ st', domainRound sample known m n dps sps st = some st' ∧
      st'.rrs.length =
        st.rrs.length + min n (dictAfter sample known dps sps st.dict).length := by
  obtain ⟨insts, hsel⟩ :=
    @selectAll_isSome sample m (selOf sample n (dictAfter sample known dps sps st.dict))
      (fun p hp => hm p (selOf_subset hs n _ p hp))
  refine ⟨⟨dictAfter sample known dps sps st.dict, st.rrs ++ insts⟩, ?_, ?_⟩
  · unfold domainRound
    rw [hg]
    simp [hsel]
  · have h1 : insts.map Prod.fst = selOf sample n (dictAfter sample known dps sps st.dict) :=
      selectAll_some_map_fst hs hsel
    have h2 : insts.length = min n (dictAfter sample known dps sps st.dict).length := by
      rw [← selOf_length hs n (dictAfter sample known dps sps st.dict), ← h1]
      simp
    simp [h2]

/-- Witness for C1 at a concrete input: two candidate pairs, target 2. -/
theorem selection_count_law_witness :
    ∃ st', domainRound takeSample [] (fun _ => 1) 2 ["A", "B"] ["X"] ⟨[], []⟩ = some st' ∧
      st'.rrs.length =
        (RoundState.mk [] []).rrs.length +
          min 2 (dictAfter takeSample [] ["A", "B"] ["X"] (RoundState.mk [] []).dict).length :=
  selection_count_law takeSample_spec [] (fun _ => 1) 2 ["A", "B"] ["X"] ⟨[], []⟩
    (by decide) (by decide)

/-- C4 — Cap respect: per domain-interface round the generated candidate
list never exceeds 50 pairs; when the Cartesian product of the two groups
exceeds 50 the list is a without-replacement sample of exactly 50 of its
elements, otherwise it is the full product. -/
theorem cap_respect {sample : (α : Type) → List α → Nat → List α}
    (hs : SampleSpec sample) (dps sps : List String) :
    (chooseCandidates sample dps sps).length ≤ 50 ∧
    (50 < (cartProduct dps sps).length →
      (chooseCandidates sample dps sps).length = 50 ∧
      (∀ x ∈ chooseCandidates sample dps sps, x ∈ cartProduct dps sps) ∧
      ((cartProduct dps sps).Nodup → (chooseCandidates sample dps sps).Nodup)) ∧
    ((cartProduct dps sps).length ≤ 50 →
      chooseCandidates sample dps sps = cartProduct dps sps) := by
  by_cases h : 50 < (cartProduct dps sps).length
  · obtain ⟨hlen, hmem, hnd⟩ := hs Pair (cartProduct dps sps) 50 (Nat.le_of_lt h)
    refine ⟨?_, fun _ => ⟨?_, ?_, ?_⟩, fun h2 => ?_⟩
    · simp [chooseCandidates, h, hlen]
    · simpa [chooseCandidates, h] using hlen
    · simpa [chooseCandidates, h] using hmem
    · simpa [chooseCandidates, h] using hnd
    · omega
  · have h2 : (cartProduct dps sps).length ≤ 50 := by omega
    refine ⟨?_, fun h3 => absurd h3 h, fun _ => ?_⟩
    · simpa [chooseCandidates, h] using h2
    · simp [chooseCandidates, h]

/-- Witness for C4 at a concrete input: a 2-element product, below cap. -/
theorem cap_respect_witness :
    (chooseCandidates takeSample ["A", "B"] ["X"]).length ≤ 50 ∧
    (50 < (cartProduct ["A", "B"] ["X"]).length →
      (chooseCandidates takeSample ["A", "B"] ["X"]).length = 50 ∧
      (∀ x ∈ chooseCandidates takeSample ["A", "B"] ["X"], x ∈ cartProduct ["A", "B"] ["X"]) ∧
      ((cartProduct ["A", "B"] ["X"]).Nodup → (chooseCandidates takeSample ["A", "B"] ["X"]).Nodup)) ∧
    ((cartProduct ["A", "B"] ["X"]).length ≤ 50 →
      chooseCandidates takeSample ["A", "B"] ["X"] = cartProduct ["A", "B"] ["X"]) :=
  cap_respect takeSample_spec ["A", "B"] ["X"]

/-- C5 — Canonicalization: the canonical form and hence the candidate-pool
update of a drawn pair are order-independent, because the two protein
identifiers are sorted before the known-PPI test and accumulation. -/
theorem pair_canonicalization (known d : List Pair) (a b : String) :
    sortPair (a, b) = sortPair (b, a) ∧
    addCandidate known d (a, b) = addCandidate known d (b, a) := by
  refine ⟨sortPair_comm a b, ?_⟩
  unfold addCandidate
  rw [sortPair_comm a b]

/-- C8 — Empty-group degeneracy: a domain-interface round whose domain
group or motif group is empty leaves the state untouched (no candidate
pair, no instance) and raises no error. -/
theorem empty_group_degenerate {sample : (α : Type) → List α → Nat → List α}
    (known : List Pair) (m : Pair → Nat) (n : Nat) (dps sps : List String)
    (st : RoundState) (h : dps = [] ∨ sps = []) :
    domainRound sample known m n dps sps st = some st := by
  rcases h with h | h
  · subst h
    exact domainRound_some_of_guard_false st (by simp [anyTruthy])
  · subst h
    exact domainRound_some_of_guard_false st (by simp [anyTruthy])

/-- Witness for C8 at a concrete input: empty domain group. -/
theorem empty_group_degenerate_witness :
    domainRound takeSample [] (fun _ => 1) 4 [] ["X"] ⟨[], []⟩ = some ⟨[], []⟩ :=
  empty_group_degenerate [] (fun _ => 1) 4 [] ["X"] ⟨[], []⟩ (Or.inl rfl)

/-- C10 — Selection totality precondition: the selection step draws from
the whole `protein_pairs_dict` and indexes each drawn pair's match list
for the current DMI type, so the round completes whenever every pair in
the dict has at least one recorded match; when some pair has none and the
dict is smaller than the target count (so every pair is iterated), the
`KeyError` branch is taken and the round fails. -/
theorem selection_totality {sample : (α : Type) → List α → Nat → List α}
    (hs : SampleSpec sample) (known : List Pair) (m : Pair → Nat) (n : Nat)
    (dps sps : List String) (st : RoundState)
    (hg : (anyTruthy dps && anyTruthy sps) = true) :
    ((∀ p ∈ dictAfter sample known dps sps st.dict, 0 < m p) →
      ∃ st', domainRound sample known m n dps sps st = some st') ∧
    ((∃ p ∈ dictAfter sample known dps sps st.dict, m p = 0) →
      (dictAfter sample known dps sps st.dict).length < n →
      domainRound sample known m n dps sps st = none) := by
  constructor
  · intro hm
    obtain ⟨insts, hsel⟩ :=
      @selectAll_isSome sample m (selOf sample n (dictAfter sample known dps sps st.dict))
        (fun p hp => hm p (selOf_subset hs n _ p hp))
    refine ⟨⟨dictAfter sample known dps sps st.dict, st.rrs ++ insts⟩, ?_⟩
    unfold domainRound
    rw [hg]
    simp [hsel]
  · rintro ⟨p, hp, hm0⟩ hsmall
    have hsel : selOf sample n (dictAfter sample known dps sps st.dict) =
        dictAfter sample known dps sps st.dict := by
      unfold selOf
      have : ¬ n ≤ (dictAfter sample known dps sps st.dict).length := by omega
      simp [this]
    have hnone : selectAll sample m (selOf sample n (dictAfter sample known dps sps st.dict)) = none := by
      rw [hsel]
      exact selectAll_none_of_mem hp hm0
    unfold domainRound
    rw [hg]
    simp [hnone]

/-- Witness for C10 at a concrete input: one candidate pair, target 4. -/
theorem selection_totality_witness :
    ((∀ p ∈ dictAfter takeSample [] ["A"] ["X"] (RoundState.mk [] []).dict, 0 < (fun _ => 1) p) →
      ∃ st', domainRound takeSample [] (fun _ => 1) 4 ["A"] ["X"] ⟨[], []⟩ = some st') ∧
    ((∃ p ∈ dictAfter takeSample [] ["A"] ["X"] (RoundState.mk [] []).dict, (fun _ => 1) p = 0) →
      (dictAfter takeSample [] ["A"] ["X"] (RoundState.mk [] []).dict).length < 4 →
      domainRound takeSample [] (fun _ => 1) 4 ["A"] ["X"] ⟨[], []⟩ = none) :=
  selection_totality takeSample_spec [] (fun _ => 1) 4 ["A"] ["X"] ⟨[], []⟩ (by decide)

/-- C2 (counterexample) — with two domain interfaces the same candidate
pair contributes an instance in each interface round of one DMI type:
`protein_pairs_dict` is reset per DMI type only, and the selection block
runs inside the per-interface loop over the accumulated dict.  Here the
DMI type has interfaces `("D1",)` and `("D2",)`, both groups hold protein
`A`, the motif group holds `X`, and pair `(A, X)` yields an instance
twice in the same replicate. -/
theorem dmi_type_duplicate_pair_counterexample :
    slimRound takeSample [] (fun _ => 1) 4 [(["D1"], ["A"]), (["D2"], ["A"])]
        [["D1"], ["D2"]] ["X"] [] =
      some ⟨[("A", "X")], [(("A", "X"), 0), (("A", "X"), 0)]⟩ ∧
    ¬ (([((("A" : String), ("X" : String)), (0 : Nat)),
        ((("A", "X")), 0)].map Prod.fst).Nodup) := by
  constructor
  · decide
  · decide

/-- C2 (amended) — No duplicate pairs per domain-interface round: the
instances appended by one domain-interface round originate from pairwise
distinct candidate pairs of `protein_pairs_dict` (the draw is without
replacement over the dict keys). -/
theorem per_interface_round_distinct_pairs
    (sample : (α : Type) → List α → Nat → List α) (hs : SampleSpec sample)
    (known : List Pair) (m : Pair → Nat) (n : Nat) (dps sps : List String)
    (st st' : RoundState)
    (hg : (anyTruthy dps && anyTruthy sps) = true)
    (hd : st.dict.Nodup)
    (h : domainRound sample known m n dps sps st = some st') :
    ∃ new, st'.rrs = st.rrs ++ new ∧ (new.map Prod.fst).Nodup ∧
      ∀ i ∈ new, i.1 ∈ st'.dict := by
  obtain ⟨hdict, insts, hrrs, hsel⟩ := domainRound_spec hg h
  refine ⟨insts, hrrs, ?_, ?_⟩
  · rw [selectAll_some_map_fst hs hsel]
    refine selOf_nodup hs n ?_
    rw [hdict]
    exact dictAfter_nodup dps sps hd
  · intro i hi
    have h1 : i.1 ∈ insts.map Prod.fst := List.mem_map_of_mem _ hi
    rw [selectAll_some_map_fst hs hsel] at h1
    exact selOf_subset hs n _ _ h1

/-- Witness for the amended C2 at a concrete input: one pair, one
instance. -/
theorem per_interface_round_distinct_pairs_witness :
    ∃ new, (RoundState.mk [("A", "X")] [(("A", "X"), 0)]).rrs =
        (RoundState.mk [] []).rrs ++ new ∧ (new.map Prod.fst).Nodup ∧
      ∀ i ∈ new, i.1 ∈ (RoundState.mk [("A", "X")] [(("A", "X"), 0)]).dict :=
  per_interface_round_distinct_pairs takeSample takeSample_spec [] (fun _ => 1) 4
    ["A"] ["X"] ⟨[], []⟩ ⟨[("A", "X")], [(("A", "X"), 0)]⟩
    (by decide) (by decide) (by decide)

/-- C9 — Interface resolution for multi-interface types: with more than
one `DomainInterface` each interface is resolved to its first domain
identifier alone (the group key is the 1-tuple of that identifier, so the
rounds are unchanged whenever the first identifiers agree — any second
identifier is never consulted); with a single interface the full 1- or
2-domain key is used. -/
theorem interface_resolution :
    (∀ di : List String, interfaceKeys [di] = [di]) ∧
    (∀ ifaces : List (List String), 1 < ifaces.length →
      interfaceKeys ifaces = ifaces.map (fun di => di.take 1)) ∧
    (∀ (sample : (α : Type) → List α → Nat → List α) (known : List Pair)
      (m : Pair → Nat) (n : Nat) (dgs : List (List String × List String))
      (sps : List String) (rrs : List Inst) (ifaces ifaces' : List (List String)),
      1 < ifaces.length → 1 < ifaces'.length →
      ifaces.map (fun di => di.take 1) = ifaces'.map (fun di => di.take 1) →
      slimRound sample known m n dgs ifaces sps rrs =
        slimRound sample known m n dgs ifaces' sps rrs) := by
  have hmap : ∀ ifaces : List (List String), 1 < ifaces.length →
      interfaceKeys ifaces = ifaces.map (fun di => di.take 1) := by
    intro ifaces h
    match ifaces with
    | [] => simp at h
    | [di] => simp at h
    | a :: b :: rest => rfl
  refine ⟨fun di => rfl, hmap, ?_⟩
  intro sample known m n dgs sps rrs ifaces ifaces' h1 h2 hagree
  unfold slimRound
  rw [hmap ifaces h1, hmap ifaces' h2, hagree]

/-- Witness for C9 at concrete inputs: the second domain of each interface
of a two-interface type is dropped; a single two-domain interface keeps
its full key. -/
theorem interface_resolution_witness :
    interfaceKeys [["D1", "D2"]] = [["D1", "D2"]] ∧
    interfaceKeys [["D1", "D2"], ["D3"]] = [["D1"], ["D3"]] ∧
    slimRound takeSample [] (fun _ => 1) 4 [(["D1"], ["A"]), (["D3"], [])]
        [["D1", "D2"], ["D3"]] ["X"] [] =
      slimRound takeSample [] (fun _ => 1) 4 [(["D1"], ["A"]), (["D3"], [])]
        [["D1", "D9"], ["D3", "D8"]] ["X"] [] := by
  refine ⟨interface_resolution.1 ["D1", "D2"], ?_, ?_⟩
  · rw [interface_resolution.2.1 [["D1", "D2"], ["D3"]] (by decide)]
    decide
  · exact interface_resolution.2.2 takeSample [] (fun _ => 1) 4
      [(["D1"], ["A"]), (["D3"], [])] ["X"] [] [["D1", "D2"], ["D3"]]
      [["D1", "D9"], ["D3", "D8"]] (by decide) (by decide) (by decide)

lemma lookupAssoc_addProtein (groups : List (List String × List String))
    (pr : String × List String) (k : List String) :
    lookupAssoc (addProtein groups pr) k =
      (lookupAssoc groups k).map
        (fun g => if protCond k pr.2 then g ++ [pr.1] else g) := by
  induction groups with
  | nil => rfl
  | cons e rest ih =>
    have hmap : addProtein (e :: rest) pr =
        (if protCond e.1 pr.2 then (e.1, e.2 ++ [pr.1]) else e) :: addProtein rest pr := by
      simp [addProtein]
    rw [hmap]
    by_cases he : e.1 = k
    · subst he
      by_cases hc : protCond e.1 pr.2
      · simp [lookupAssoc, hc]
      · simp [lookupAssoc, hc]
    · by_cases hc : protCond e.1 pr.2
      · simp [lookupAssoc, he, hc, ih]
      · simp [lookupAssoc, he, hc, ih]

lemma get_domain_groups_lookup (init : List (List String × List String))
    (prots : List (String × List String)) (k : List String) :
    lookupAssoc (get_domain_groups init prots) k =
      (lookupAssoc init k).map
        (fun g0 => g0 ++ (prots.filter (fun pr => protCond k pr.2)).map Prod.fst) := by
  induction prots generalizing init with
  | nil =>
    cases h0 : lookupAssoc init k <;> simp [get_domain_groups, h0]
  | cons pr rest ih =>
    have step : get_domain_groups init (pr :: rest) =
        get_domain_groups (addProtein init pr) rest := rfl
    rw [step, ih, lookupAssoc_addProtein]
    by_cases hc : protCond k pr.2
    · cases h0 : lookupAssoc init k <;> simp [h0, hc]
    · cases h0 : lookupAssoc init k <;> simp [h0, hc]

/-- C6 — Group-membership condition: after `get_domain_groups` processes
the proteins, the group of a registered key equals its initial content
followed by exactly the proteins satisfying the key's membership
condition, in input order; and that condition reads, for a single-domain
key, "the domain is in the protein's domain match set", and for a
two-domain key, "both identifiers of the key are in the protein's domain
match set". -/
theorem group_membership (init : List (List String × List String))
    (prots : List (String × List String)) (k : List String)
    (d : String) (ms : List String) (d1 d2 : String) (ms2 : List String)
    (hd : d ≠ "") (hd1 : d1 ≠ "") :
    lookupAssoc (get_domain_groups init prots) k =
      (lookupAssoc init k).map
        (fun g0 => g0 ++ (prots.filter (fun pr => protCond k pr.2)).map Prod.fst) ∧
    (protCond [d] ms = true ↔ ms.contains d = true) ∧
    (protCond [d1, d2] ms2 = true ↔
      (ms2.contains d1 = true ∧ ms2.contains d2 = true)) := by
  refine ⟨get_domain_groups_lookup init prots k, ?_, ?_⟩
  · unfold protCond anyTruthy
    simp
    intro h
    exact ⟨d, h, hd⟩
  · unfold protCond anyTruthy
    simp
    intro h2 h3
    exact ⟨d1, h2, hd1⟩

/-- Witness for C6 at a concrete input: one registered single-domain key
and two proteins, only the first of which carries the domain. -/
theorem group_membership_witness :
    lookupAssoc (get_domain_groups [(["D1"], [])] [("P1", ["D1"]), ("P2", [])]) ["D1"] =
      (lookupAssoc [(["D1"], ([] : List String))] ["D1"]).map
        (fun g0 => g0 ++
          (([("P1", ["D1"]), ("P2", ([] : List String))].filter
            (fun pr => protCond ["D1"] pr.2)).map Prod.fst)) ∧
    (protCond ["D1"] ["D1"] = true ↔ (["D1"].contains "D1") = true) ∧
    (protCond ["D1", "D2"] ["D1", "D2"] = true ↔
      ((["D1", "D2"].contains "D1") = true ∧ (["D1", "D2"].contains "D2") = true)) :=
  group_membership [(["D1"], [])] [("P1", ["D1"]), ("P2", [])] ["D1"]
    "D1" ["D1"] "D1" "D2" ["D1", "D2"] (by decide) (by decide)

/-- The property C3 needs of accumulated instances: every origin pair is
canonical and is not a known PPI. -/
def CleanInsts (known : List Pair) (l : List Inst) : Prop :=
  ∀ i ∈ l, i.1 ∉ known ∧ sortPair i.1 = i.1

lemma domainRound_pres {sample : (α : Type) → List α → Nat → List α}
    (hs : SampleSpec sample) {known : List Pair} {m : Pair → Nat} {n : Nat}
    {dps sps : List String} {st st' : RoundState}
    (h : domainRound sample known m n dps sps st = some st')
    (hgd : GoodDict known st.dict) (hrrs : CleanInsts known st.rrs) :
    GoodDict known st'.dict ∧ CleanInsts known st'.rrs := by
  cases hg : (anyTruthy dps && anyTruthy sps) with
  | true =>
    obtain ⟨hdict, insts, hrest, hsel⟩ := domainRound_spec hg h
    have hgd' : GoodDict known st'.dict := by
      rw [hdict]
      exact dictAfter_good _ _ hgd
    refine ⟨hgd', ?_⟩
    rw [hrest]
    intro i hi
    rcases List.mem_append.mp hi with h1 | h1
    · exact hrrs i h1
    · have h2 : i.1 ∈ insts.map Prod.fst := List.mem_map_of_mem _ h1
      rw [selectAll_some_map_fst hs hsel] at h2
      exact hgd'.2 _ (selOf_subset hs n _ _ h2)
  | false =>
    rw [domainRound_some_of_guard_false st hg] at h
    cases h
    exact ⟨hgd, hrrs⟩

lemma domainRounds_pres {sample : (α : Type) → List α → Nat → List α}
    (hs : SampleSpec sample) {known : List Pair} {m : Pair → Nat} {n : Nat}
    {dgs : List (List String × List String)} {sps : List String}
    (keys : List (List String)) {st st' : RoundState}
    (h : domainRounds sample known m n dgs sps keys st = some st')
    (hgd : GoodDict known st.dict) (hrrs : CleanInsts known st.rrs) :
    CleanInsts known st'.rrs := by
  induction keys generalizing st with
  | nil =>
    cases h
    exact hrrs
  | cons key rest ih =>
    unfold domainRounds at h
    cases hl : lookupAssoc dgs key with
    | none => rw [hl] at h; simp at h
    | some dps =>
      rw [hl] at h
      simp only [] at h
      cases hr : domainRound sample known m n dps sps st with
      | none => rw [hr] at h; simp at h
      | some st1 =>
        rw [hr] at h
        obtain ⟨hgd1, hrrs1⟩ := domainRound_pres hs hr hgd hrrs
        exact ih h hgd1 hrrs1

lemma slimRound_pres {sample : (α : Type) → List α → Nat → List α}
    (hs : SampleSpec sample) {known : List Pair} {m : Pair → Nat} {n : Nat}
    {dgs : List (List String × List String)} {ifaces : List (List String)}
    {sps : List String} {rrs0 : List Inst} {st' : RoundState}
    (h : slimRound sample known m n dgs ifaces sps rrs0 = some st')
    (hrrs : CleanInsts known rrs0) : CleanInsts known st'.rrs :=
  domainRounds_pres hs (interfaceKeys ifaces) h (goodDict_nil known) hrrs

lemma slimRounds_pres {sample : (α : Type) → List α → Nat → List α}
    (hs : SampleSpec sample) {matcher : String → Pair → Nat} {n : Nat}
    {dmi_types : List (String × List (List String))}
    {dgs : List (List String × List String)} {known : List Pair}
    (l : List (String × List String)) {st st' : RoundState}
    (h : slimRounds sample matcher n dmi_types dgs known l st = some st')
    (hrrs : CleanInsts known st.rrs) : CleanInsts known st'.rrs := by
  induction l generalizing st with
  | nil =>
    cases h
    exact hrrs
  | cons sg rest ih =>
    unfold slimRounds at h
    cases hl : lookupAssoc (dmi_types.map (fun e => ([e.1], e.2))) [sg.1] with
    | none => rw [hl] at h; simp at h
    | some ifaces =>
      rw [hl] at h
      simp only [] at h
      cases hr : slimRound sample known (matcher sg.1) n dgs ifaces sg.2 st.rrs with
      | none => rw [hr] at h; simp at h
      | some st1 =>
        rw [hr] at h
        exact ih h (slimRound_pres hs hr hrrs)

/-- C3 — Known-PPI exclusion: every instance a replicate accumulates
originates from a canonicalized (sorted) pair that is not in the known-PPI
set; a pair of the known-PPI set therefore never contributes an instance
to any replicate (lines 141-144 sort each drawn pair and discard it if it
is a known PPI before it can enter `protein_pairs_dict`). -/
theorem known_ppi_exclusion (sample : (α : Type) → List α → Nat → List α)
    (hs : SampleSpec sample) (matcher : String → Pair → Nat) (n : Nat)
    (dmi_types : List (String × List (List String))) (g : Global)
    (g' : Global) (rrs : List Inst)
    (h : runReplicate sample matcher n dmi_types g = some (g', rrs)) :
    ∀ i ∈ rrs, i.1 ∉ g.known_PPIs ∧ sortPair i.1 = i.1 := by
  unfold runReplicate at h
  cases hsr : slimRounds sample matcher n dmi_types g.domain_groups g.known_PPIs
      g.slim_groups ⟨g.protein_pairs_dict, []⟩ with
  | none => rw [hsr] at h; simp at h
  | some st =>
    rw [hsr] at h
    simp only [Option.some.injEq] at h
    have hrrs : rrs = st.rrs := (congrArg Prod.snd h).symm
    rw [hrrs]
    exact slimRounds_pres hs g.slim_groups hsr (by intro i hi; simp at hi)

/-- Witness for C3 at a concrete input: known PPI `(A, X)` is excluded,
the replicate draws only from `(B, X)`. -/
theorem known_ppi_exclusion_witness :
    ((("B" : String), ("X" : String)), (0 : Nat)).1 ∉
      (Global.mk [(["D1"], ["A", "B"])] [("E1", ["X"])] [("A", "X")] []).known_PPIs ∧
    sortPair ((("B" : String), ("X" : String)), (0 : Nat)).1 =
      ((("B" : String), ("X" : String)), (0 : Nat)).1 :=
  known_ppi_exclusion takeSample takeSample_spec (fun _ _ => 1) 4 [("E1", [["D1"]])]
    ⟨[(["D1"], ["A", "B"])], [("E1", ["X"])], [("A", "X")], []⟩
    ⟨[(["D1"], ["A", "B"])], [("E1", ["X"])], [("A", "X")], [("B", "X")]⟩
    [(("B", "X"), 0)] (by decide) ((("B", "X"), 0)) (by decide)

lemma slimRounds_rrs_dict_indep (sample : (α : Type) → List α → Nat → List α)
    (matcher : String → Pair → Nat) (n : Nat)
    (dmi_types : List (String × List (List String)))
    (dgs : List (List String × List String)) (known : List Pair)
    (l : List (String × List String)) (d d' : List Pair) (r : List Inst) :
    (slimRounds sample matcher n dmi_types dgs known l ⟨d, r⟩).map RoundState.rrs =
      (slimRounds sample matcher n dmi_types dgs known l ⟨d', r⟩).map RoundState.rrs := by
  cases l with
  | nil => rfl
  | cons sg rest =>
    unfold slimRounds
    cases hl : lookupAssoc (dmi_types.map (fun e => ([e.1], e.2))) [sg.1] with
    | none => rfl
    | some ifaces =>
      cases hr : slimRound sample known (matcher sg.1) n dgs ifaces sg.2 r with
      | none => simp [hr]
      | some st1 => simp [hr]

/-- C7 — Replicate frame property: one replicate run leaves the shared
`domain_groups`, `slim_groups` and `known_PPIs` exactly as it found them
(only the scratch `protein_pairs_dict` is written), and the instance
collection it returns belongs to this invocation alone — it starts empty
and does not depend on the `protein_pairs_dict` contents left behind by
any earlier replicate. -/
theorem replicate_frame (sample : (α : Type) → List α → Nat → List α)
    (matcher : String → Pair → Nat) (n : Nat)
    (dmi_types : List (String × List (List String))) (g : Global)
    (g' : Global) (rrs : List Inst)
    (h : runReplicate sample matcher n dmi_types g = some (g', rrs)) :
    g'.domain_groups = g.domain_groups ∧ g'.slim_groups = g.slim_groups ∧
    g'.known_PPIs = g.known_PPIs ∧
    ∀ d : List Pair,
      (runReplicate sample matcher n dmi_types
          { g with protein_pairs_dict := d }).map Prod.snd = some rrs := by
  unfold runReplicate at h
  cases hsr : slimRounds sample matcher n dmi_types g.domain_groups g.known_PPIs
      g.slim_groups ⟨g.protein_pairs_dict, []⟩ with
  | none => rw [hsr] at h; simp at h
  | some st =>
    rw [hsr] at h
    simp only [Option.some.injEq] at h
    have hg' : g' = { g with protein_pairs_dict := st.dict } :=
      (congrArg Prod.fst h).symm
    have hrrs : rrs = st.rrs := (congrArg Prod.snd h).symm
    subst hg'
    refine ⟨rfl, rfl, rfl, ?_⟩
    intro d
    have hind := slimRounds_rrs_dict_indep sample matcher n dmi_types
      g.domain_groups g.known_PPIs g.slim_groups d g.protein_pairs_dict []
    rw [hsr] at hind
    unfold runReplicate
    simp only []
    cases hsr2 : slimRounds sample matcher n dmi_types g.domain_groups g.known_PPIs
        g.slim_groups ⟨d, []⟩ with
    | none => rw [hsr2] at hind; simp at hind
    | some st2 =>
      rw [hsr2] at hind
      simp at hind
      simp [hrrs, hind]

/-- Witness for C7 at a concrete input: a replicate run over shared groups
with a leftover scratch dict; the three shared structures are returned
unchanged and the replicate's instances do not depend on the leftover
dict. -/
theorem replicate_frame_witness :
    (Global.mk [(["D1"], ["A", "B"])] [("E1", ["X"])] [("A", "X")] [("B", "X")]).domain_groups =
      (Global.mk [(["D1"], ["A", "B"])] [("E1", ["X"])] [("A", "X")] [("Z", "Z")]).domain_groups ∧
    (Global.mk [(["D1"], ["A", "B"])] [("E1", ["X"])] [("A", "X")] [("B", "X")]).slim_groups =
      (Global.mk [(["D1"], ["A", "B"])] [("E1", ["X"])] [("A", "X")] [("Z", "Z")]).slim_groups ∧
    (Global.mk [(["D1"], ["A", "B"])] [("E1", ["X"])] [("A", "X")] [("B", "X")]).known_PPIs =
      (Global.mk [(["D1"], ["A", "B"])] [("E1", ["X"])] [("A", "X")] [("Z", "Z")]).known_PPIs ∧
    (runReplicate takeSample (fun _ _ => 1) 4 [("E1", [["D1"]])]
        { Global.mk [(["D1"], ["A", "B"])] [("E1", ["X"])] [("A", "X")] [("Z", "Z")] with
          protein_pairs_dict := [("Q", "Q")] }).map Prod.snd =
      some [(("B", "X"), 0)] := by
  have h := replicate_frame takeSample (fun _ _ => 1) 4 [("E1", [["D1"]])]
    ⟨[(["D1"], ["A", "B"])], [("E1", ["X"])], [("A", "X")], [("Z", "Z")]⟩
    ⟨[(["D1"], ["A", "B"])], [("E1", ["X"])], [("A", "X")], [("B", "X")]⟩
    [(("B", "X"), 0)] (by decide)
  exact ⟨h.1, h.2.1, h.2.2.1, h.2.2.2 [("Q", "Q")]⟩
